import Mathlib

/-!
Formal model of the PhishGuard frontend scan pipeline.

The definitions below are shallow embeddings of the repository's
JavaScript sources:

* `FEATURE_EXPLANATIONS` — `phishguard-dashboard/src/featureExplanations.js`;
* `toFixed` — the ECMAScript `Number.prototype.toFixed` decimal formatting,
  modelled over `ℚ` (sign extracted first, then round half toward the larger
  candidate, then fixed-width fraction digits);
* `renderContribList`, `sortKey`, `contribLE` — the contribution renderer of
  the modal frontend (`list.slice().sort((a,b)=>Math.abs(b.contribution||0)-
  Math.abs(a.contribution||0)).slice(0,8)` plus the display-value rule);
* `saveHistoryList`, `appendHistory`, `loadHistory`, `runCheckHistoryEffect` —
  the localStorage history store of `Frontend/script.js`;
* `AppState`, `submitStep`, `respStep` — the request lifecycle of `handleScan`
  in `phishguard-dashboard/src/App.jsx`;
* `scanUrlFetches` — the input guard of `scanUrl` in the simpler dashboard.
-/

namespace PhishGuard

/-- JSON values, as delivered by `res.json()`. -/
inductive JVal where
  | null
  | bool (b : Bool)
  | num (q : ℚ)
  | str (s : String)
  | arr (elems : List JVal)
  | obj (fields : List (String × JVal))

/-- Property access `j.k` on a JSON value: a field lookup on objects,
`undefined` (here `none`) on everything else. -/
def jget : JVal → String → Option JVal
  | .obj fields, k => fields.lookup k
  | _, _ => none

/-- The explanation registry of `featureExplanations.js`, verbatim. -/
def FEATURE_EXPLANATIONS : List (String × String) :=
  [ ("length_url",
     "Very long URLs are often used in phishing attacks to hide malicious parameters and confuse users."),
    ("directory_length",
     "Long and deeply nested directory paths are commonly used to conceal phishing content."),
    ("qty_slash_directory",
     "Multiple directory slashes can indicate complex redirection patterns often seen in phishing URLs."),
    ("qty_dot_file",
     "Excessive dots in file names may suggest obfuscation techniques used by attackers."),
    ("qty_dollar_directory",
     "Special characters like \x27$\x27 are frequently used in phishing URLs to trick users."),
    ("time_domain_activation",
     "Newly registered domains are commonly associated with phishing campaigns."),
    ("domain_length",
     "Unusually long domain names may be crafted to resemble legitimate brands."),
    ("qty_hyphen_domain",
     "Hyphens in domain names are often used to imitate trusted websites."),
    ("qty_subdomain",
     "Multiple subdomains can be used to mislead users about the true destination of a URL."),
    ("https_token",
     "The presence or misuse of HTTPS-related tokens can be deceptive in phishing URLs."),
    ("ip_address",
     "Using an IP address instead of a domain name is a strong indicator of phishing behavior."),
    ("__default__",
     "This indicator represents a structural property of the URL commonly analyzed in phishing detection.") ]

/-- The reserved `__default__` explanation text of the registry. -/
def defaultExplanation : String :=
  "This indicator represents a structural property of the URL commonly analyzed in phishing detection."

/-- Modelled from the spec: the `explain(featureId)` lookup operation of the
Explanation Registry. The registry itself is in `src/`, but its consumer (the
exact, case-sensitive lookup with the `__default__` fallback) is not; the spec
describes it as "exact, case-sensitive lookup; on miss, returns the fixed
default explanation text". -/
def explain (fid : String) : String :=
  (FEATURE_EXPLANATIONS.lookup fid).getD defaultExplanation

/-- The ECMAScript `Math.abs` on rationals. -/
def qAbs (q : ℚ) : ℚ := if q < 0 then -q else q

/-- Rounding of `|q|·10^f` to the nearest integer, ties toward the larger
candidate, as prescribed for `toFixed` by the ECMAScript specification
("if there are two such n, pick the larger n"), i.e. `⌊|q|·10^f + 1/2⌋`.
With `a = |q.num|` and `b = q.den` this floor is the natural-number division
`(2·a·10^f + b) / (2·b)`, which is the form used here. -/
def scaledRound (q : ℚ) (f : ℕ) : ℕ :=
  (2 * q.num.natAbs * 10 ^ f + q.den) / (2 * q.den)

/-- Exactly `f` decimal digit characters of `n`, most significant first,
padded with leading zeros. -/
def fracChars (n f : ℕ) : List Char :=
  (List.range f).reverse.map fun i => Nat.digitChar (n / 10 ^ i % 10)

/-- The ECMAScript `Number.prototype.toFixed` on rationals: extract the sign,
round `|q|·10^f` half-up, and print the result with exactly `f` digits after
the decimal point (no point at all when `f = 0`). -/
def toFixed (q : ℚ) (f : ℕ) : String :=
  let sign := if q < 0 then "-" else ""
  let m := scaledRound q f
  if f = 0 then sign ++ Nat.repr m
  else sign ++ Nat.repr (m / 10 ^ f) ++ "." ++ String.mk (fracChars (m % 10 ^ f) f)

/-- Number of characters after the last decimal point of a string. -/
def decimalsAfterPoint (s : String) : ℕ :=
  (s.data.reverse.takeWhile fun c => c != '.').length

/-- One raw contribution entry `{feature, contribution}` of the service
response; `contribution` is `none` when the field is `null`/absent. -/
structure RawContribution where
  feature : String
  contribution : Option ℚ

/-- The ranking key of the renderer's comparator: `Math.abs(c.contribution||0)`. -/
def sortKey (c : RawContribution) : ℚ :=
  qAbs (c.contribution.getD 0)

/-- The renderer's sort order: `a` may precede `b` exactly when the comparator
`Math.abs(b.contribution||0) - Math.abs(a.contribution||0)` is `≤ 0`. -/
def contribLE (a b : RawContribution) : Bool :=
  decide (sortKey b ≤ sortKey a)

/-- The stable sort performed on the copied list (`list.slice().sort(...)`). -/
def sortedContribs (l : List RawContribution) : List RawContribution :=
  (l.mergeSort contribLE)

/-- The retained entries: the sorted list truncated to the first 8. -/
def topContribs (l : List RawContribution) : List RawContribution :=
  (sortedContribs l).take 8

/-- The display value of one retained entry: coerce a `null` contribution to
`0`; percentages with 2 decimals for `|val| ≤ 1`, raw decimals with 4 decimals
otherwise. -/
def displayOf (c : RawContribution) : String :=
  let val := c.contribution.getD 0
  if qAbs val ≤ 1 then toFixed (val * 100) 2 ++ "%" else toFixed val 4

/-- One rendered list item: the feature name and its display value. -/
structure ContribItem where
  feature : String
  display : String

/-- Builds the rendered item of one retained contribution. -/
def mkItem (c : RawContribution) : ContribItem :=
  ⟨c.feature, displayOf c⟩

/-- The observable outcome of `renderContribList`: the rendered items, whether
the empty-input placeholder is shown, and the content of the caller's list
after the call (the code sorts `list.slice()`, a copy, so the input buffer is
returned unchanged). -/
structure RenderResult where
  items : List ContribItem
  showsNoContributions : Bool
  inputAfter : List RawContribution

/-- The contribution renderer `renderContribList(targetEl, list)`. -/
def renderContribList (l : List RawContribution) : RenderResult :=
  { items := (topContribs l).map mkItem
    showsNoContributions := l.isEmpty
    inputAfter := l }

/-- One persisted history record `{url, t, prediction, confidence}`. -/
structure HistRecord where
  url : String
  t : ℕ
  prediction : String
  confidence : Option ℚ
deriving DecidableEq

/-- The history writer `saveHistory(h)`: persist `h.slice(0,30)`. -/
def saveHistoryList (h : List HistRecord) : List HistRecord :=
  h.take 30

/-- The success-path append of `runCheck`: `h.unshift(record); saveHistory(h)`. -/
def appendHistory (r : HistRecord) (h : List HistRecord) : List HistRecord :=
  saveHistoryList (r :: h)

/-- The persisted history after a sequence of successful non-replay scans,
oldest submission first, starting from an empty store. -/
def historyAfter (recs : List HistRecord) : List HistRecord :=
  recs.foldl (fun h r => appendHistory r h) []

/-- The history reader `loadHistory()`. `stored` is the persisted blob
(`none` when the key is absent) and `parse` the JSON parser (`none` on
unparsable input); the code parses `stored || "[]"` and catches any parse
failure, returning `[]`. -/
def loadHistory (stored : Option String)
    (parse : String → Option (List HistRecord)) : List HistRecord :=
  let raw := match stored with
    | none => "[]"
    | some s => if s = "" then "[]" else s
  match parse raw with
  | some h => h
  | none => []

/-- Effect of one `runCheck(url, skipStore)` call on the persisted history:
`outcome` is the record built on the success path (`none` when the scan
failed); the store block is skipped entirely when `skipStore` is set. -/
def runCheckHistoryEffect (skipStore : Bool) (outcome : Option HistRecord)
    (h : List HistRecord) : List HistRecord :=
  match outcome with
  | some r => if skipStore then h else appendHistory r h
  | none => h

/-- A replay from the history panel: the click handler runs
`runCheck(h[idx].url, true)`, i.e. with `skipStore` set. -/
def replayScan (h : List HistRecord) (_idx : ℕ) (outcome : Option HistRecord) :
    List HistRecord :=
  runCheckHistoryEffect true outcome h

/-- The input guard of `scanUrl` in the simpler dashboard (`if (!url) return;`):
a network call is made exactly when the string is nonempty (truthy). -/
def scanUrlFetches (url : String) : Bool :=
  url != ""

/-- One entry of the dashboard's in-memory scan history
(`{url, prediction: data.prediction, confidence: data.confidence, time}`). -/
structure DashHistoryEntry where
  url : String
  prediction : Option JVal
  confidence : Option JVal

/-- The React state owned by `App` in `App.jsx`: `loading`, `result`,
`error` and the in-memory `history`. -/
structure AppState where
  loading : Bool
  result : Option JVal
  error : Option String
  history : List DashHistoryEntry

/-- The initial state: `useState(false)`, `useState(null)`, `useState(null)`,
`useState([])`. -/
def initialAppState : AppState :=
  ⟨false, none, none, []⟩

/-- The ECMAScript `String.prototype.trim`: strip leading and trailing
whitespace. -/
def jsTrim (s : String) : String :=
  String.mk (((s.data.dropWhile Char.isWhitespace).reverse.dropWhile
    Char.isWhitespace).reverse)

/-- The synchronous head of `handleScan`: `if (!url.trim()) return;` then
`setLoading(true); setError(null)` and the `fetch` is issued. Returns the new
state and whether a network call was made. -/
def submitStep (s : AppState) (url : String) : AppState × Bool :=
  if jsTrim url = "" then (s, false)
  else ({ s with loading := true, error := none }, true)

/-- The error message thrown on a non-2xx response:
`data.error || "Scan failed"` (the service contract makes `error` a string;
a missing or empty field falls back to the generic message). -/
def jsErrorMsg (data : JVal) : String :=
  match jget data "error" with
  | some (.str s) => if s = "" then "Scan failed" else s
  | _ => "Scan failed"

/-- What the network hands back to `handleScan`: either a reply with an HTTP
`ok` flag and a body (`Except.error` when `res.json()` throws, carrying the
engine's parse-error message), or a rejected `fetch`. -/
inductive NetResult where
  | reply (ok : Bool) (body : Except String JVal)
  | fetchFailed (msg : String)

/-- The continuation of `handleScan` once the network resolves:
`data = await res.json(); if (!res.ok) throw Error(data.error || "Scan
failed"); setResult(data); setHistory(prepend)`, with the `catch` setting
`error` and the `finally` clearing `loading`. Note the body is parsed before
`res.ok` is checked, and no schema validation is performed on `data`. -/
def respStep (s : AppState) (url : String) (net : NetResult) : AppState :=
  match net with
  | .fetchFailed msg => { s with error := some msg, loading := false }
  | .reply _ (.error msg) => { s with error := some msg, loading := false }
  | .reply ok (.ok data) =>
    if ok then
      { s with
        result := some data
        history := ⟨url, jget data "prediction", jget data "confidence"⟩ :: s.history
        loading := false }
    else { s with error := some (jsErrorMsg data), loading := false }

/-- An observable event of the dashboard: a user submission, or the arrival of
the network outcome of an earlier submission. -/
inductive DashEv where
  | submit (url : String)
  | arrive (url : String) (net : NetResult)

/-- One event step of the dashboard. -/
def dashStep (s : AppState) (e : DashEv) : AppState :=
  match e with
  | .submit url => (submitStep s url).1
  | .arrive url net => respStep s url net

/-- The dashboard state after a sequence of events from the initial state. -/
def runDash (evs : List DashEv) : AppState :=
  evs.foldl dashStep initialAppState

/-- Modelled from the spec: schema of one entry of `top_contributions`
(`{ "feature": <string>, "contribution": <number> }`). This is the spec-side
schema, stated for comparison; the code performs no such validation. -/
def specValidContribution : JVal → Bool
  | .obj fields =>
    (match fields.lookup "feature" with
     | some (.str _) => true
     | _ => false) &&
    (match fields.lookup "contribution" with
     | some (.num _) => true
     | _ => false)
  | _ => false

/-- Modelled from the spec: the expected schema of a 2xx body
(`prediction ∈ {"Phishing","Legitimate"}`, `confidence` a number in `[0,1]`
or `null`/absent, `top_contributions` absent or an array of valid entries).
This is the spec-side schema, stated for comparison; the code performs no
such validation. -/
def specValidSchema : JVal → Bool
  | .obj fields =>
    (match fields.lookup "prediction" with
     | some (.str s) => s == "Phishing" || s == "Legitimate"
     | _ => false) &&
    (match fields.lookup "confidence" with
     | some (.num q) => decide (0 ≤ q) && decide (q ≤ 1)
     | some .null => true
     | none => true
     | _ => false) &&
    (match fields.lookup "top_contributions" with
     | some (.arr elems) => elems.all specValidContribution
     | none => true
     | _ => false)
  | _ => false

/-! Helper lemmas. -/

theorem take_append_take {α : Type} (xs ys : List α) (n : ℕ) :
    (xs ++ ys.take n).take n = (xs ++ ys).take n := by
  rw [List.take_append_eq_append_take, List.take_append_eq_append_take,
    List.take_take, min_eq_left (Nat.sub_le n xs.length)]

theorem foldl_appendHistory (recs : List HistRecord) (h : List HistRecord)
    (hh : h.length ≤ 30) :
    recs.foldl (fun h r => appendHistory r h) h = (recs.reverse ++ h).take 30 := by
  induction recs generalizing h with
  | nil =>
    simp only [List.foldl_nil, List.reverse_nil, List.nil_append]
    exact (List.take_of_length_le hh).symm
  | cons r rs ih =>
    simp only [List.foldl_cons]
    rw [ih (appendHistory r h) (by simp [appendHistory, saveHistoryList])]
    show (rs.reverse ++ (r :: h).take 30).take 30 = _
    rw [take_append_take]
    simp [List.append_assoc]

/-! Claim theorems. -/

/-- C5. After `N` successful non-replay submissions from an empty store, the
persisted history holds exactly the `min(N, 30)` most recent records, newest
first: it equals the reversed submission sequence truncated to 30, so the
capacity is never exceeded and eviction is strictly FIFO (the record dropped
on overflow is always the oldest one). -/
theorem history_bounded_fifo (recs : List HistRecord) :
    historyAfter recs = recs.reverse.take 30
    ∧ (historyAfter recs).length = min recs.length 30 := by
  have h1 : historyAfter recs = recs.reverse.take 30 := by
    unfold historyAfter
    rw [foldl_appendHistory recs [] (by simp)]
    simp
  refine ⟨h1, ?_⟩
  rw [h1, List.length_take, List.length_reverse, Nat.min_comm]

/-- C6. A replayed scan (`runCheck(h[idx].url, true)`, issued by the history
click handler) never appends a record and never changes the length or the
order of the history log: the resulting log is the old one, unchanged,
whatever the scan's outcome. -/
theorem replay_preserves_history (h : List HistRecord) (idx : ℕ)
    (outcome : Option HistRecord) :
    replayScan h idx outcome = h ∧ (replayScan h idx outcome).length = h.length := by
  have he : replayScan h idx outcome = h := by
    cases outcome <;> simp [replayScan, runCheckHistoryEffect]
  exact ⟨he, by rw [he]⟩

/-- C7. `loadHistory()` returns the stored sequence when the persisted blob
parses, and the empty sequence when the blob is absent or unparsable; being a
total function, it never propagates a parse failure to its caller. -/
theorem loadHistory_total_fallback (parse : String → Option (List HistRecord))
    (stored : Option String) (hJ : parse "[]" = some []) :
    (stored = none → loadHistory stored parse = [])
    ∧ (∀ s l, stored = some s → s ≠ "" → parse s = some l →
        loadHistory stored parse = l)
    ∧ (∀ s, stored = some s → parse s = none → loadHistory stored parse = []) := by
  refine ⟨?_, ?_, ?_⟩
  · rintro rfl
    simp [loadHistory, hJ]
  · rintro s l rfl hs hp
    simp [loadHistory, hs, hp]
  · rintro s rfl hp
    by_cases hs : s = ""
    · subst hs
      simp [loadHistory, hJ]
    · simp [loadHistory, hs, hp]

/-- Witness for C7 at a concrete unparsable blob and a concrete parser. -/
theorem loadHistory_total_fallback_witness :
    loadHistory (some "garbage") (fun t => if t = "[]" then some [] else none) = [] :=
  (loadHistory_total_fallback (fun t => if t = "[]" then some [] else none)
    (some "garbage") (by simp)).2.2 "garbage" rfl (by simp)

/-- C1 fails on the code: `handleScan` attaches no request token and performs
no staleness check, so when submission A is still pending as B is issued and
B's response arrives first, A's response, arriving last, overwrites the result
that B had set. Concretely, after the trace submit A, submit B, B's 2xx
response, A's 2xx response, the state holds A's body, not B's. -/
theorem stale_response_overwrites :
    (runDash [DashEv.submit "http://a", DashEv.submit "http://b",
      DashEv.arrive "http://b"
        (NetResult.reply true (Except.ok (JVal.obj [("prediction", JVal.str "Legitimate")]))),
      DashEv.arrive "http://a"
        (NetResult.reply true (Except.ok (JVal.obj [("prediction", JVal.str "Phishing")])))]).result
      = some (JVal.obj [("prediction", JVal.str "Phishing")])
    ∧ (runDash [DashEv.submit "http://a", DashEv.submit "http://b",
      DashEv.arrive "http://b"
        (NetResult.reply true (Except.ok (JVal.obj [("prediction", JVal.str "Legitimate")])))]).result
      = some (JVal.obj [("prediction", JVal.str "Legitimate")])
    ∧ JVal.obj [("prediction", JVal.str "Phishing")]
      ≠ JVal.obj [("prediction", JVal.str "Legitimate")] := by
  refine ⟨rfl, rfl, ?_⟩
  intro h
  simp at h

/-- C1 amended: `handleScan` has no supersession rule at all — the state after
any event trace ending in the arrival of a parsed 2xx response holds that
response's body as the result, regardless of which submission it belonged to
(last arrival wins). -/
theorem last_arrival_wins (pre : List DashEv) (url : String) (data : JVal) :
    (runDash (pre ++ [DashEv.arrive url (NetResult.reply true (Except.ok data))])).result
      = some data := by
  unfold runDash
  rw [List.foldl_append]
  simp [dashStep, respStep]

/-- C4 fails on the code: for the whitespace URL `" "` (trimmed form empty),
`scanUrl` of the simpler dashboard does perform a network call (its guard
checks only exact emptiness), and `handleScan` merely returns early: it sets
no `ValidationError` (the `error` field stays `none`) and leaves the previous
state — here a leftover result, not `Idle` — untouched. -/
theorem whitespace_url_guard_counterexample :
    jsTrim " " = ""
    ∧ scanUrlFetches " " = true
    ∧ submitStep (AppState.mk false (some (JVal.str "old")) none []) " "
        = (AppState.mk false (some (JVal.str "old")) none [], false)
    ∧ (AppState.mk false (some (JVal.str "old")) none []).error = none
    ∧ (AppState.mk false (some (JVal.str "old")) none []).result ≠ none := by
  refine ⟨by decide, by decide, ?_, rfl, by simp⟩
  unfold submitStep
  rw [if_pos (by decide : jsTrim " " = "")]

/-- C4 amended: for every URL whose trimmed form is empty, `handleScan`
performs no network call and returns with the state completely unchanged —
in particular no error value is produced and the previous result, error and
loading values persist (the only variant that validates the trimmed URL;
`scanUrl` rejects only the exactly-empty string, as the counterexample
shows). -/
theorem trimmed_empty_url_no_fetch (s : AppState) (url : String)
    (h : jsTrim url = "") :
    submitStep s url = (s, false) ∧ (submitStep s url).1.error = s.error := by
  have he : submitStep s url = (s, false) := by
    unfold submitStep
    rw [if_pos h]
  exact ⟨he, by rw [he]⟩

/-- Witness for C4 amended, at the empty URL and the initial state. -/
theorem trimmed_empty_url_no_fetch_witness :
    submitStep initialAppState "" = (initialAppState, false) :=
  (trimmed_empty_url_no_fetch initialAppState "" (by decide)).1

/-- C9 fails on the code: `handleScan` validates no schema, so a 2xx response
whose body is the JSON object `{}` — which has no `prediction` field and
violates the expected schema — is exposed as a Success state: the parsed body
becomes the result, no error is set, and a history entry is even appended. -/
theorem malformed_2xx_body_accepted :
    respStep (AppState.mk true none none []) "http://x"
        (NetResult.reply true (Except.ok (JVal.obj [])))
      = AppState.mk false (some (JVal.obj [])) none
          [DashHistoryEntry.mk "http://x" none none]
    ∧ specValidSchema (JVal.obj []) = false := by
  exact ⟨rfl, rfl⟩

/-- C9 amended: every 2xx response whose body parses as JSON is exposed as a
Success (the parsed body becomes the result unchanged and the error field is
untouched) no matter whether the body matches the expected schema; only a
body that fails JSON parsing produces an error state. -/
theorem parsed_2xx_always_success (s : AppState) (url : String) (data : JVal) :
    (respStep s url (NetResult.reply true (Except.ok data))).result = some data
    ∧ (respStep s url (NetResult.reply true (Except.ok data))).error = s.error
    ∧ ∀ msg, (respStep s url (NetResult.reply true (Except.error msg))).error
        = some msg := by
  exact ⟨rfl, rfl, fun msg => rfl⟩

theorem lookup_mem_values (l : List (String × String)) (fid v : String)
    (h : l.lookup fid = some v) : v ∈ l.map Prod.snd := by
  induction l with
  | nil => simp [List.lookup] at h
  | cons p tl ih =>
    simp only [List.lookup] at h
    cases hbe : fid == p.1 with
    | true =>
      rw [hbe] at h
      simp only [Option.some.injEq] at h
      subst h
      exact List.mem_map_of_mem Prod.snd (List.mem_cons_self p tl)
    | false =>
      rw [hbe] at h
      exact List.mem_cons_of_mem _ (ih h)

/-- C8. `explain` is an exact, case-sensitive lookup in the registry:
`explain("length_url")` returns the long-URL explanation, a miss (including a
differently-cased key) returns the fixed default text, and the returned
string is never empty. -/
theorem explain_lookup_spec :
    explain "length_url"
      = "Very long URLs are often used in phishing attacks to hide malicious parameters and confuse users."
    ∧ explain "not_a_real_feature" = defaultExplanation
    ∧ explain "LENGTH_URL" = defaultExplanation
    ∧ ∀ fid, explain fid ≠ "" := by
  refine ⟨by decide, by decide, by decide, ?_⟩
  intro fid
  unfold explain
  cases h : FEATURE_EXPLANATIONS.lookup fid with
  | none => decide
  | some v =>
    have hv := lookup_mem_values _ _ _ h
    have hall : ∀ w ∈ FEATURE_EXPLANATIONS.map Prod.snd, w ≠ "" := by decide
    simpa using hall v hv

theorem takeWhile_all_append (l r : List Char)
    (hl : ∀ c ∈ l, (c != '.') = true) :
    ((l ++ '.' :: r).takeWhile fun c => c != '.') = l := by
  induction l with
  | nil => simp [List.takeWhile_cons]
  | cons a as ih =>
    have ha := hl a (List.mem_cons_self a as)
    simp only [List.cons_append, List.takeWhile_cons, ha, if_true]
    rw [ih fun c hc => hl c (List.mem_cons_of_mem a hc)]

theorem fracChars_length (n f : ℕ) : (fracChars n f).length = f := by
  simp [fracChars]

theorem fracChars_ne_dot (n f : ℕ) : ∀ c ∈ fracChars n f, (c != '.') = true := by
  intro c hc
  simp only [fracChars, List.mem_map, List.mem_reverse, List.mem_range] at hc
  obtain ⟨i, _, rfl⟩ := hc
  have h10 : n / 10 ^ i % 10 < 10 := Nat.mod_lt _ (by norm_num)
  exact (by decide : ∀ d < 10, (Nat.digitChar d != '.') = true) _ h10

theorem decimalsAfterPoint_concat (s : String) (fr : List Char)
    (hfr : ∀ c ∈ fr, (c != '.') = true) :
    decimalsAfterPoint (s ++ "." ++ String.mk fr) = fr.length := by
  unfold decimalsAfterPoint
  have hdata : (s ++ "." ++ String.mk fr).data = s.data ++ '.' :: fr := by
    rw [String.data_append, String.data_append]
    show s.data ++ ['.'] ++ fr = _
    simp
  rw [hdata, List.reverse_append, List.reverse_cons, List.append_assoc,
    List.singleton_append,
    takeWhile_all_append _ _ (fun c hc => hfr c (List.mem_reverse.mp hc)),
    List.length_reverse]

theorem decimalsAfterPoint_toFixed (q : ℚ) (f : ℕ) (hf : f ≠ 0) :
    decimalsAfterPoint (toFixed q f) = f := by
  simp only [toFixed]
  rw [if_neg hf]
  rw [decimalsAfterPoint_concat
    ((if q < 0 then "-" else "") ++ Nat.repr (scaledRound q f / 10 ^ f)) _
    (fracChars_ne_dot _ f)]
  exact fracChars_length _ f

theorem qAbs_eq_abs (q : ℚ) : qAbs q = |q| := by
  unfold qAbs
  rcases lt_or_le q 0 with h | h
  · rw [if_pos h, abs_of_neg h]
  · rw [if_neg (not_lt.mpr h), abs_of_nonneg h]

theorem scaledRound_eq_floor (q : ℚ) (f : ℕ) :
    scaledRound q f = ⌊qAbs q * 10 ^ f + 1 / 2⌋₊ := by
  have hb : (q.den : ℚ) ≠ 0 := Nat.cast_ne_zero.mpr q.den_nz
  have habs : |q| = (q.num.natAbs : ℚ) / (q.den : ℚ) := by
    conv_lhs => rw [← Rat.num_div_den q]
    rw [abs_div, abs_of_nonneg (by positivity : (0 : ℚ) ≤ (q.den : ℚ)),
      Int.cast_natAbs, Int.cast_abs]
  have hx : qAbs q * 10 ^ f + 1 / 2
      = ((2 * q.num.natAbs * 10 ^ f + q.den : ℕ) : ℚ) / ((2 * q.den : ℕ) : ℚ) := by
    rw [qAbs_eq_abs, habs]
    push_cast
    field_simp
    ring
  rw [hx, Nat.floor_div_eq_div]
  rfl

theorem displayOf_small (c : RawContribution)
    (h : qAbs (c.contribution.getD 0) ≤ 1) :
    displayOf c = toFixed (c.contribution.getD 0 * 100) 2 ++ "%" := by
  simp only [displayOf]
  rw [if_pos h]

theorem displayOf_large (c : RawContribution)
    (h : ¬ qAbs (c.contribution.getD 0) ≤ 1) :
    displayOf c = toFixed (c.contribution.getD 0) 4 := by
  simp only [displayOf]
  rw [if_neg h]

theorem toFixed_eval_neg (q : ℚ) (f m : ℕ) (hf : f ≠ 0) (hq : q < 0)
    (hm : scaledRound q f = m) :
    toFixed q f
      = "-" ++ Nat.repr (m / 10 ^ f) ++ "." ++ String.mk (fracChars (m % 10 ^ f) f) := by
  simp only [toFixed]
  rw [if_neg hf, if_pos hq, hm]

theorem toFixed_eval_nonneg (q : ℚ) (f m : ℕ) (hf : f ≠ 0) (hq : ¬ q < 0)
    (hm : scaledRound q f = m) :
    toFixed q f
      = "" ++ Nat.repr (m / 10 ^ f) ++ "." ++ String.mk (fracChars (m % 10 ^ f) f) := by
  simp only [toFixed]
  rw [if_neg hf, if_neg hq, hm]

theorem scaledRound_eval (q : ℚ) (f : ℕ) (n : ℤ) (d : ℕ) (hn : q.num = n)
    (hd : q.den = d) :
    scaledRound q f = (2 * n.natAbs * 10 ^ f + d) / (2 * d) := by
  unfold scaledRound
  rw [hn, hd]

theorem toFixed_neg90 : toFixed (-90 : ℚ) 2 = "-90.00" := by
  rw [toFixed_eval_neg (-90) 2 9000 (by decide) (by norm_num)
    (by rw [scaledRound_eval (-90) 2 (-90) 1 (by norm_num) (by norm_num)]; decide)]
  decide

theorem toFixed_31 : toFixed (31 : ℚ) 2 = "31.00" := by
  rw [toFixed_eval_nonneg 31 2 3100 (by decide) (by norm_num)
    (by rw [scaledRound_eval 31 2 31 1 (by norm_num) (by norm_num)]; decide)]
  decide

theorem toFixed_zero2 : toFixed (0 : ℚ) 2 = "0.00" := by
  rw [toFixed_eval_nonneg 0 2 0 (by decide) (by norm_num)
    (by rw [scaledRound_eval 0 2 0 1 (by norm_num) (by norm_num)]; decide)]
  decide

/-- C3. The display value of a retained contribution `c` is the percentage
`c·100` formatted with exactly 2 decimal places and a `%` suffix when
`|c| ≤ 1`, and the raw decimal value of `c` with exactly 4 decimal places
otherwise; in particular contribution `-0.9` renders as `"-90.00%"` and
`0.31` as `"31.00%"`. -/
theorem display_value_format :
    (∀ c : RawContribution, qAbs (c.contribution.getD 0) ≤ 1 →
      displayOf c = toFixed (c.contribution.getD 0 * 100) 2 ++ "%"
      ∧ decimalsAfterPoint (toFixed (c.contribution.getD 0 * 100) 2) = 2)
    ∧ (∀ c : RawContribution, ¬ qAbs (c.contribution.getD 0) ≤ 1 →
      displayOf c = toFixed (c.contribution.getD 0) 4
      ∧ decimalsAfterPoint (displayOf c) = 4)
    ∧ displayOf ⟨"b", some (-(9 / 10))⟩ = "-90.00%"
    ∧ displayOf ⟨"a", some (31 / 100)⟩ = "31.00%" := by
  refine ⟨?_, ?_, ?_, ?_⟩
  · intro c h
    exact ⟨displayOf_small c h, decimalsAfterPoint_toFixed _ 2 (by decide)⟩
  · intro c h
    refine ⟨displayOf_large c h, ?_⟩
    rw [displayOf_large c h]
    exact decimalsAfterPoint_toFixed _ 4 (by decide)
  · have hq : qAbs (((⟨"b", some (-(9 / 10))⟩ : RawContribution).contribution).getD 0) ≤ 1 := by
      show qAbs (-(9 / 10 : ℚ)) ≤ 1
      unfold qAbs
      rw [if_pos (by norm_num)]
      norm_num
    rw [displayOf_small _ hq]
    show toFixed (-(9 / 10 : ℚ) * 100) 2 ++ "%" = _
    rw [show (-(9 / 10 : ℚ) * 100) = -90 by norm_num, toFixed_neg90]
    decide
  · have hq : qAbs (((⟨"a", some (31 / 100)⟩ : RawContribution).contribution).getD 0) ≤ 1 := by
      show qAbs (31 / 100 : ℚ) ≤ 1
      unfold qAbs
      rw [if_neg (by norm_num)]
      norm_num
    rw [displayOf_small _ hq]
    show toFixed ((31 / 100 : ℚ) * 100) 2 ++ "%" = _
    rw [show ((31 / 100 : ℚ) * 100) = 31 by norm_num, toFixed_31]
    decide

/-- Witness for C3: both formatting branches discharged at concrete
contributions (`0.5`, percentage branch; `2.5`, raw-decimal branch). -/
theorem display_value_format_witness :
    (displayOf ⟨"half", some (1 / 2)⟩ = toFixed ((1 / 2 : ℚ) * 100) 2 ++ "%"
      ∧ decimalsAfterPoint (toFixed ((1 / 2 : ℚ) * 100) 2) = 2)
    ∧ (displayOf ⟨"big", some (5 / 2)⟩ = toFixed (5 / 2 : ℚ) 4
      ∧ decimalsAfterPoint (displayOf ⟨"big", some (5 / 2)⟩) = 4) := by
  constructor
  · exact display_value_format.1 ⟨"half", some (1 / 2)⟩
      (by show qAbs (1 / 2 : ℚ) ≤ 1; unfold qAbs; rw [if_neg (by norm_num)]; norm_num)
  · exact display_value_format.2.1 ⟨"big", some (5 / 2)⟩
      (by show ¬ qAbs (5 / 2 : ℚ) ≤ 1; unfold qAbs; rw [if_neg (by norm_num)]; norm_num)

/-- C10. The renderer is total over entries with an absent contribution —
such an entry is coerced to `0`, ranks with key `0` and displays as
`"0.00%"` — and it never mutates its input list: the caller's buffer after
the call is exactly the input (the code sorts a copy). -/
theorem renderer_null_total_pure :
    (∀ l : List RawContribution, (renderContribList l).inputAfter = l)
    ∧ (∀ c : RawContribution, c.contribution = none →
        sortKey c = 0 ∧ displayOf c = "0.00%") := by
  constructor
  · intro l
    rfl
  · intro c hc
    have hval : c.contribution.getD 0 = 0 := by rw [hc]; rfl
    have hzero : qAbs (0 : ℚ) = 0 := by
      unfold qAbs
      rw [if_neg (by norm_num)]
    constructor
    · unfold sortKey
      rw [hval, hzero]
    · have hq : qAbs (c.contribution.getD 0) ≤ 1 := by
        rw [hval, hzero]
        norm_num
      rw [displayOf_small c hq, hval,
        show ((0 : ℚ) * 100) = 0 by norm_num, toFixed_zero2]
      decide

/-- Witness for C10 at a concrete null-contribution entry. -/
theorem renderer_null_total_pure_witness :
    (renderContribList [⟨"ip_address", none⟩]).inputAfter = [⟨"ip_address", none⟩]
    ∧ sortKey ⟨"ip_address", none⟩ = 0
    ∧ displayOf ⟨"ip_address", none⟩ = "0.00%" :=
  ⟨renderer_null_total_pure.1 _, (renderer_null_total_pure.2 _ rfl).1,
    (renderer_null_total_pure.2 _ rfl).2⟩

theorem contribLE_trans (a b c : RawContribution) :
    contribLE a b → contribLE b c → contribLE a c := by
  simp only [contribLE, decide_eq_true_eq]
  intro hab hbc
  exact le_trans hbc hab

theorem contribLE_total (a b : RawContribution) :
    contribLE a b || contribLE b a := by
  simp only [contribLE, Bool.or_eq_true, decide_eq_true_eq]
  exact le_total _ _

/-- C2. The renderer's output is the stable descending-by-absolute-value sort
of the input truncated to 8 entries: the retained entries are pairwise sorted
by descending ranking key, the sort is stable (for every key value, the
entries carrying that key appear in the sorted sequence exactly as they
arrived), and the output length is `min |input| 8` (at most 8; exactly 8 for
9 or more inputs). -/
theorem contributions_sorted_stable_bounded (l : List RawContribution) :
    (renderContribList l).items = (topContribs l).map mkItem
    ∧ (topContribs l).Pairwise (fun a b => sortKey b ≤ sortKey a)
    ∧ (∀ v : ℚ, (sortedContribs l).filter (fun c => decide (sortKey c = v))
        = l.filter (fun c => decide (sortKey c = v)))
    ∧ (renderContribList l).items.length = min l.length 8 := by
  refine ⟨rfl, ?_, ?_, ?_⟩
  · have hs : (l.mergeSort contribLE).Pairwise (fun a b => contribLE a b) :=
      List.sorted_mergeSort contribLE_trans contribLE_total l
    have hs2 : (sortedContribs l).Pairwise (fun a b => sortKey b ≤ sortKey a) :=
      hs.imp fun h => of_decide_eq_true h
    exact hs2.sublist (List.take_sublist 8 _)
  · intro v
    have hsub : List.Sublist (l.filter (fun c => decide (sortKey c = v))) l :=
      List.filter_sublist l
    have hpw : (l.filter (fun c => decide (sortKey c = v))).Pairwise
        (fun a b => contribLE a b) := by
      apply List.pairwise_of_forall_mem_list
      intro a ha b hb
      rw [List.mem_filter] at ha hb
      have ha2 := of_decide_eq_true ha.2
      have hb2 := of_decide_eq_true hb.2
      show contribLE a b = true
      simp [contribLE, ha2, hb2]
    have hstable := List.sublist_mergeSort contribLE_trans contribLE_total hpw hsub
    have h2 : List.Sublist (l.filter (fun c => decide (sortKey c = v)))
        ((sortedContribs l).filter (fun c => decide (sortKey c = v))) := by
      have h3 := hstable.filter (fun c => decide (sortKey c = v))
      rwa [List.filter_filter, show
        (fun c => decide (sortKey c = v) && decide (sortKey c = v))
          = fun c => decide (sortKey c = v) from funext fun c => Bool.and_self _]
        at h3
    have hperm : List.Perm
        ((sortedContribs l).filter (fun c => decide (sortKey c = v)))
        (l.filter (fun c => decide (sortKey c = v))) :=
      (List.mergeSort_perm l contribLE).filter _
    exact (h2.eq_of_length hperm.length_eq.symm).symm
  · simp only [renderContribList]
    rw [List.length_map]
    unfold topContribs sortedContribs
    rw [List.length_take, List.length_mergeSort]
    exact Nat.min_comm 8 l.length

end PhishGuard
